import Mathlib

/-!
# Verification of the chia_dungeon excavator pipeline

Shallow embedding of `src/utils/excavator.rs` (the offset table, scatter,
tunnel and `parse_nft_id` functions reachable from `main.rs`), together with
theorems settling the frozen claims about the natural-language specification.

Modelling conventions:
* Rust `char` is Lean `Char`; a token (`&str`) is a `List Char`; Rust
  `str::len` (a byte count) is `byteLen` below, summing UTF-8 sizes.
* Rust `f64` rounding of `sqrt`-expressions is replaced by exact integer
  formulas over an integer square root (see the comments at `roundMul15Sqrt`,
  `roundSqrtDiv4`, `roundMulSqrt`): on every value the program can reach the
  `f64` computation is accurate to far better than the distance to the nearest
  rounding boundary, so round-half-away-from-zero of the exact real value and
  of the `f64` value agree, and the integer formulas below compute exactly
  that. `f64::sqrt` of a negative argument is NaN and `NaN as i32` is `0`,
  modelled explicitly where it can occur.
* A Rust panic (`unwrap` of `None`, `%` by zero, `usize` underflow followed by
  an out-of-bounds `unwrap`) is the `POut.trap` outcome.
* `rand::thread_rng` / `gen_range` is an explicit oracle `Nat → Int × Int`;
  theorems that need the `gen_range` contract assume the oracle's points lie
  in the sampled box. The rejection-sampling `while` loop is given explicit
  fuel; a `none` result means the loop is still running after `fuel`
  iterations (for every fuel).
* `HashMap<char, usize>` iteration order is unspecified in Rust; it is
  modelled by an explicit key `order : List Char`, quantified over
  permutations of the map's key set.
* `HashSet<(i32,i32)>` is modelled as a duplicate-free `List (Int × Int)`
  maintained by `insertPoint`; all claims about it are order-insensitive.
-/

/-- The two `Err(String)` messages `parse_nft_id` can produce, as an
enumeration (`invalidFormat` = "Invalid NFT ID format. It must start with
nft1 and be long enough.", `invalidRoomChar` = "Invalid character for room
count."). -/
inductive PErrKind where
  | invalidFormat : PErrKind
  | invalidRoomChar : PErrKind
deriving DecidableEq, Repr

/-- Outcome of running a fallible Rust function: normal return, `Err`, or a
panic (trap). -/
inductive POut (α : Type) where
  | ok : α → POut α
  | err : PErrKind → POut α
  | trap : POut α
deriving DecidableEq, Repr

/-- ASCII lowercasing of a single character, as Rust
`char::to_ascii_lowercase`. -/
def toAsciiLower (c : Char) : Char :=
  if 'A' ≤ c ∧ c ≤ 'Z' then Char.ofNat (c.toNat + 32) else c

/-- Rust `c.is_digit(10)`. -/
def isDigit10 (c : Char) : Bool := '0' ≤ c ∧ c ≤ '9'

/-- Rust `c.is_ascii_lowercase()`. -/
def isAsciiLowercase (c : Char) : Bool := 'a' ≤ c ∧ c ≤ 'z'

/-- Function `char_to_num` from `src/utils/excavator.rs`: digit → its value, otherwise
`to_ascii_lowercase() as i32 - 'a' as i32 + 10` (negative for code points
below `'W'` that are not digits). -/
def char_to_num (c : Char) : Int :=
  if isDigit10 c then (c.toNat : Int) - 48
  else (toAsciiLower c).toNat - 97 + 10

/-- Rust `c.to_digit(36)`: `Some` exactly on ASCII alphanumerics. -/
def toDigit36 (c : Char) : Option Nat :=
  if isDigit10 c then some (c.toNat - 48)
  else if 'a' ≤ c ∧ c ≤ 'z' then some (c.toNat - 97 + 10)
  else if 'A' ≤ c ∧ c ≤ 'Z' then some (c.toNat - 65 + 10)
  else none

/-- Rust `str::len` — the UTF-8 byte length of the token. -/
def byteLen (token : List Char) : Nat := (token.map Char.utf8Size).sum

/-- The Newton iteration of `Nat.sqrt` with explicit fuel, so that it both
evaluates inside `decide` (shallow recursion) and provably coincides with
`Nat.sqrt`. -/
def isqrtAux (n : Nat) : Nat → Nat → Nat
  | 0, guess => guess
  | fuel + 1, guess =>
    if (guess + n / guess) / 2 < guess then isqrtAux n fuel ((guess + n / guess) / 2)
    else guess

/-- Executable integer square root: the greatest `k` with `k * k ≤ n`. -/
def isqrt (n : Nat) : Nat :=
  if n ≤ 1 then n else isqrtAux n n (n / 2)

theorem isqrtAux_eq_iter (n : Nat) :
    ∀ fuel guess, guess ≤ fuel → isqrtAux n fuel guess = Nat.sqrt.iter n guess := by
  intro fuel
  induction fuel with
  | zero =>
    intro guess h
    have hg : guess = 0 := by omega
    subst hg
    rw [Nat.sqrt.iter]
    simp [isqrtAux]
  | succ f ih =>
    intro guess h
    rw [Nat.sqrt.iter]
    by_cases hlt : (guess + n / guess) / 2 < guess
    · simp only [isqrtAux]
      rw [if_pos hlt, dif_pos hlt]
      exact ih _ (by omega)
    · simp only [isqrtAux]
      rw [if_neg hlt, dif_neg hlt]

theorem isqrt_eq_sqrt (n : Nat) : isqrt n = Nat.sqrt n := by
  unfold isqrt Nat.sqrt
  split
  · rfl
  · exact isqrtAux_eq_iter n n (n / 2) (by omega)

/-- Fact: `isqrt` is the (unique) integer square root: `isqrt n ^ 2 ≤ n < (isqrt n + 1)^2`. -/
theorem isqrt_spec (n : Nat) :
    isqrt n * isqrt n ≤ n ∧ n < (isqrt n + 1) * (isqrt n + 1) := by
  rw [isqrt_eq_sqrt]
  exact ⟨Nat.sqrt_le n, Nat.lt_succ_sqrt n⟩

theorem isqrt_le_of_lt_sq {n k : Nat} (h : n < (k + 1) * (k + 1)) : isqrt n ≤ k := by
  by_contra hlt
  have h1 : k + 1 ≤ isqrt n := by omega
  have h2 := (isqrt_spec n).1
  nlinarith

/-- Rounding helper: `roundMul15Sqrt c` equals `(sqrt(c as f64) * 1.5).round() as i32`
for every `c` the program can reach. Justification: for real `x ≥ 0`,
`round(1.5 * sqrt c) = ⌊(3 * sqrt c + 1) / 2⌋ = ⌊(⌊sqrt (9 c)⌋ + 1) / 2⌋`
(`f64::round` is half-away-from-zero, which for non-negative arguments is
`⌊x + 1/2⌋`; exact halves occur only at odd perfect squares `c`, where the
`f64` computation is exact; elsewhere the `f64` error is orders of magnitude
below the distance to the nearest half). -/
def roundMul15Sqrt (c : Nat) : Nat := (isqrt (9 * c) + 1) / 2

/-- Models `((n as f64).sqrt() / 4.0).round() as i32` for the reachable room counts:
`round(sqrt n / 4) = ⌊(sqrt n + 2) / 4⌋ = ⌊(⌊sqrt n⌋ + 2) / 4⌋`; exact halves
occur only at `n = (4j + 2)^2`, where the `f64` square root is exact. -/
def roundSqrtDiv4 (n : Nat) : Nat := (isqrt n + 2) / 4

/-- Models `(v as f64 * (n as f64).sqrt()).round() as i32` for `v, n ≥ 0`:
`round(v * sqrt n) = ⌊(sqrt (4 v² n) + 1) / 2⌋`; `4 v² n` is even, so no
exact halves arise, and the `f64` error on the reachable magnitudes is far
below the distance to the nearest half. -/
def roundMulSqrt (v n : Nat) : Nat := (isqrt (4 * v * v * n) + 1) / 2

/-- The coordinate formula of `parse_nft_id`:
`(char_to_num(ch) as f64 * (num_rooms as f64).sqrt()).round() as i32`.
For negative `char_to_num` values the product is negative and `f64::round`
is symmetric (half away from zero). -/
def coordVal (c : Char) (numRooms : Nat) : Int :=
  let v := char_to_num c
  if v < 0 then -(roundMulSqrt (-v).toNat numRooms : Int)
  else (roundMulSqrt v.toNat numRooms : Int)

/-- The signed room-size formula of `parse_nft_id` before the `as u32` cast:
`2 + ((char_to_num(size_char) as f64).sqrt() * 1.5).round() as i32
 - ((num_rooms as f64).sqrt() / 4.0).round() as i32`.
For negative `char_to_num` the Rust expression takes `f64::sqrt` of a
negative number, giving NaN, and `NaN.round() as i32` is `0` (Rust float→int
casts are saturating and NaN maps to zero); that path is the `t = 0` branch. -/
def sizeI32 (numRooms : Nat) (c : Char) : Int :=
  let v := char_to_num c
  let t : Int := if v < 0 then 0 else (roundMul15Sqrt v.toNat : Int)
  2 + t - (roundSqrtDiv4 numRooms : Int)

/-- The `as u32` two's-complement reinterpretation of `sizeI32`. -/
def sizeU32 (numRooms : Nat) (c : Char) : Nat :=
  ((sizeI32 numRooms c) % (4294967296 : Int)).toNat

/-- Function `get_dungeon_type` from `src/utils/excavator.rs`. -/
def get_dungeon_type (most_frequent_char : String) : String :=
  match most_frequent_char with
  | "a" => "Ancient Ruins"
  | "b" => "Barrens"
  | "c" => "Cave"
  | "d" => "Desert"
  | "e" => "Enchanted Forest"
  | "f" => "Forest"
  | "g" => "Grassland"
  | "h" => "Hell"
  | "i" => "Ice Cavern"
  | "j" => "Jungle"
  | "k" => "Kingdom Ruins"
  | "l" => "Lava Pits"
  | "m" => "Mountain"
  | "n" => "Necropolis"
  | "o" => "Ocean Depths"
  | "p" => "Poison Swamp"
  | "q" => "Quagmire"
  | "r" => "Rainforest"
  | "s" => "Swamp"
  | "t" => "Temple"
  | "u" => "Underground Tunnels"
  | "v" => "Volcanic Crater"
  | "w" => "Water"
  | "x" => "Xeno Hive"
  | "y" => "Yellow Wasteland"
  | "z" => "Zephyr Highlands"
  | _ => "Unknown"

/-- Function `get_dungeon_level` from `src/utils/excavator.rs`. -/
def get_dungeon_level (area_size : Nat) : Nat := area_size / 1000 + 1

/-- ASCII-lowercase a token/shape string (Rust `str::to_ascii_lowercase`). -/
def lowerString (s : String) : String := String.mk (s.data.map toAsciiLower)

/-- The base offset table of `get_room_offsets` in `src/utils/excavator.rs`
(the table reachable from the pipeline; the scaling-variant table in the
crate root is dead code and not part of any claim). -/
def base_offsets (shape_char : String) : List (Int × Int) :=
  match shape_char with
  | "0" => [(0, 0)]
  | "1" => [(0, 1), (0, -1)]
  | "2" => [(1, 0), (-1, 0)]
  | "3" => [(1, 1), (-1, -1)]
  | "4" => [(-1, 0), (1, 0), (0, 1)]
  | "5" => [(0, -1), (1, 0), (-1, 1)]
  | "6" => [(-1, -1), (1, 1), (1, -1), (-1, 1)]
  | "7" => [(0, 1), (1, 0), (0, -1), (-1, 0)]
  | "8" => [(-2, 0), (2, 0), (0, -2), (0, 2)]
  | "9" => [(-3, 0), (3, 0), (0, -3), (0, 3)]
  | "a" => [(0, 1), (-1, 0), (1, 0), (0, -1)]
  | "b" => [(-1, 1), (1, -1)]
  | "c" => [(-1, 1), (1, 1), (1, -1), (-1, -1)]
  | "d" => [(-2, 2), (2, 2), (-2, -2), (2, -2)]
  | "e" => [(-2, 0), (2, 0), (0, -2), (0, 2)]
  | "f" => [(1, 1), (2, 2)]
  | "g" => [(-1, 0), (-2, 0), (-3, 0)]
  | "h" => [(0, 1), (0, 2), (0, 3)]
  | "i" => [(0, 0)]
  | "j" => [(-1, 1), (0, 1), (1, 0)]
  | "k" => [(0, 2), (-1, 1), (1, -1)]
  | "l" => [(-2, 0), (1, -1), (2, -2)]
  | "m" => [(-1, -1), (0, 1), (1, 0), (-1, 1)]
  | "n" => [(-1, 1), (1, -1), (0, 0)]
  | "o" => [(-2, 2), (2, -2), (0, 0)]
  | "p" => [(-1, 1), (1, 1), (1, -1)]
  | "q" => [(-1, 1), (-1, -1)]
  | "r" => [(-2, 2), (0, 2), (2, 2)]
  | "s" => [(-2, -2), (0, -2), (2, -2)]
  | "t" => [(-1, 0), (0, 0), (1, 0)]
  | "u" => [(-1, -1), (1, -1)]
  | "v" => [(0, 2), (-1, 1), (1, 1)]
  | "w" => [(-1, 1), (0, 0), (1, -1)]
  | "x" => [(-2, 2), (2, -2), (-2, -2), (2, 2)]
  | "y" => [(0, 2), (-1, 1), (1, -1)]
  | "z" => [(-1, 0), (0, 1), (1, 0)]
  | _ => []

/-- The 36 shape keys recognized by `base_offsets`. -/
def recognized_shapes : List String :=
  ["0", "1", "2", "3", "4", "5", "6", "7", "8", "9",
   "a", "b", "c", "d", "e", "f", "g", "h", "i", "j", "k", "l", "m",
   "n", "o", "p", "q", "r", "s", "t", "u", "v", "w", "x", "y", "z"]

/-- The inclusive integer interval `a..=b` as a list (empty when `a > b`). -/
def intRange (a b : Int) : List Int :=
  (List.range (b + 1 - a).toNat).map (fun (k : Nat) => a + (k : Int))

/-- Two's-complement normalization into the `i32` range `[-2^31, 2^31)`:
the value every release-mode `i32` arithmetic expression actually takes
(Rust release builds wrap on overflow; debug builds would panic instead,
which only matters for sizes within a few units of `2^31` and is noted where
relevant). -/
def i32Wrap (x : Int) : Int := (x + 2147483648) % 4294967296 - 2147483648

/-- Reinterpretation of the `u32` size as `i32`: the `let size = size as i32;`
cast at the top of `get_room_offsets` (an `as` cast, which wraps and never
panics). -/
def u32AsI32 (size : Nat) : Int := i32Wrap (size : Int)

/-- One base offset expanded by the nested
`for x in (bx-(size-1))..=(bx+(size-1)) { for y in ... }` loops, with
`s1 = size - 1` (as `i32`); the four bound expressions are `i32` arithmetic
and wrap accordingly. -/
def expandBase (s1 : Int) (b : Int × Int) : List (Int × Int) :=
  (intRange (i32Wrap (b.1 - s1)) (i32Wrap (b.1 + s1))).flatMap
    (fun x => (intRange (i32Wrap (b.2 - s1)) (i32Wrap (b.2 + s1))).map (fun y => (x, y)))

/-- The `if !offsets.contains(&(x, y)) { offsets.push((x, y)) }` step. -/
def addUnique (l : List (Int × Int)) (p : Int × Int) : List (Int × Int) :=
  if p ∈ l then l else l ++ [p]

/-- Function `get_room_offsets` from `src/utils/excavator.rs`: reinterpret the
`u32` size as `i32`, look up the base pattern of the (lowercased) shape,
visit every cell of every base point's square of half-width `size - 1` in
loop order, skipping duplicates. `size - 1` is itself an `i32` subtraction,
hence the inner `i32Wrap` (it differs from the identity only at
`size = 2^31`, where `i32::MIN - 1` wraps in release builds). -/
def get_room_offsets (size : Nat) (shape : String) : List (Int × Int) :=
  (((base_offsets (lowerString shape)).flatMap
      (expandBase (i32Wrap (u32AsI32 size - 1)))).foldl addUnique [])

/-- Models `HashSet::insert` on the duplicate-free-list model of the point set. -/
def insertPoint (s : List (Int × Int)) (p : Int × Int) : List (Int × Int) :=
  if p ∈ s then s else p :: s

/-- Models `existing_points.iter().copied().collect::<HashSet<_>>()`. -/
def dedupPoints (l : List (Int × Int)) : List (Int × Int) :=
  l.foldl insertPoint []

/-- The rejection-sampling loop of `add_random_excavated_points`:
`while point_set.len() < target { point_set.insert(random point) }`, with the
random source as an oracle and explicit fuel; `none` means the loop has not
terminated within `fuel` iterations. -/
def scatterLoop (oracle : Nat → Int × Int) (target : Nat) :
    Nat → List (Int × Int) → Nat → Option (List (Int × Int))
  | 0, s, _ => if target ≤ s.length then some s else none
  | fuel + 1, s, k =>
    if target ≤ s.length then some s
    else scatterLoop oracle target fuel (insertPoint s (oracle k)) (k + 1)

/-- Function `add_random_excavated_points` from `src/utils/excavator.rs`. The target
of the loop is `existing_points.len() + num_points`, where
`existing_points.len()` is the length of the input *vector* (duplicates
included), while the set is seeded with the deduplicated points. The
`x_range`/`y_range` arguments only constrain the random samples
(`gen_range(lo..=hi)`), which the oracle stands in for. -/
def add_random_excavated_points (existing_points : List (Int × Int))
    (x_range y_range : Int × Int) (num_points : Nat)
    (oracle : Nat → Int × Int) (fuel : Nat) : Option (List (Int × Int)) :=
  scatterLoop oracle (existing_points.length + num_points) fuel
    (dedupPoints existing_points) 0

/-- The horizontal phase of `create_tunnel`: the `while x != end.0` loop runs
exactly `|end.0 - x|` times, pushing the current point before each unit step;
the iteration count is the structural fuel. -/
def tunnelHorizAux : Nat → Int → Int → Int → List (Int × Int)
  | 0, _, _, _ => []
  | n + 1, x, y, ex =>
    (x, y) :: tunnelHorizAux n (if x < ex then x + 1 else x - 1) y ex

/-- The vertical phase of `create_tunnel` (`while y != end.1`). -/
def tunnelVertAux : Nat → Int → Int → Int → List (Int × Int)
  | 0, _, _, _ => []
  | n + 1, x, y, ey =>
    (x, y) :: tunnelVertAux n x (if y < ey then y + 1 else y - 1) ey

/-- Function `create_tunnel` from `src/utils/excavator.rs`: all-horizontal then
all-vertical Manhattan path from `start`, excluding `fin` itself. -/
def create_tunnel (start fin : Int × Int) : List (Int × Int) :=
  tunnelHorizAux (fin.1 - start.1).natAbs start.1 start.2 fin.1 ++
    tunnelVertAux (fin.2 - start.2).natAbs fin.1 start.2 fin.2

/-- Function `generate_tunnels` from `src/utils/excavator.rs`: connect centers
`(0,1), (2,3), …`; an unpaired trailing center produces no tunnel. -/
def generate_tunnels : List (Int × Int) → List (List (Int × Int))
  | a :: b :: rest => create_tunnel a b :: generate_tunnels rest
  | _ => []

/-- The shared cyclic-fallback character read of `parse_nft_id`:
`nft_id.chars().nth(readIdx).unwrap_or_else(|| nft_id.chars().nth(fbOff % (nft_id.len() - 5)).unwrap())`
where `fbOff` is the region-relative offset the code computes
(`coord_index - coord_start`, possibly `+ 1`). A zero-length region makes the
`%` panic; an out-of-range fallback index makes the inner `unwrap` panic. -/
def wrapChar (token : List Char) (readIdx fbOff : Nat) : POut Char :=
  match token.get? readIdx with
  | some c => POut.ok c
  | none =>
    let region := byteLen token - 5
    if region = 0 then POut.trap
    else
      match token.get? (fbOff % region) with
      | some c => POut.ok c
      | none => POut.trap

/-- The coordinate-reading loop of `parse_nft_id`: one `(x, y)` pair per room,
`coord_index` starting at 5 and advancing by 2. First argument is the number
of rooms still to read; second is the current `coord_index`. -/
def readCoordsAux (token : List Char) (numRooms : Nat) :
    Nat → Nat → POut (List (Int × Int))
  | 0, _ => POut.ok []
  | n + 1, idx =>
    match wrapChar token idx (idx - 5) with
    | POut.ok xc =>
      match wrapChar token (idx + 1) (idx - 5 + 1) with
      | POut.ok yc =>
        match readCoordsAux token numRooms n (idx + 2) with
        | POut.ok rest => POut.ok ((coordVal xc numRooms, coordVal yc numRooms) :: rest)
        | POut.err e => POut.err e
        | POut.trap => POut.trap
      | POut.err e => POut.err e
      | POut.trap => POut.trap
    | POut.err e => POut.err e
    | POut.trap => POut.trap

/-- The size-reading loop of `parse_nft_id`: `size_start + i` indexing with a
plain `unwrap` (no fallback), accumulating sizes and the running `area_size`
(`(size * 2 + 1).pow(2)` summed as `u64`; the square is computed in `u32`,
hence the `% 2^32`). First argument is rooms still to read, second the
current `i`. -/
def readSizesAux (token : List Char) (numRooms sizeStart : Nat) :
    Nat → Nat → POut (List Nat × Nat)
  | 0, _ => POut.ok ([], 0)
  | n + 1, i =>
    match token.get? (sizeStart + i) with
    | none => POut.trap
    | some c =>
      match readSizesAux token numRooms sizeStart n (i + 1) with
      | POut.ok (rest, area) =>
        POut.ok (sizeU32 numRooms c :: rest,
          ((sizeU32 numRooms c * 2 + 1) ^ 2) % 4294967296 + area)
      | POut.err e => POut.err e
      | POut.trap => POut.trap

/-- Models `let size_start = nft_id.len() - num_rooms;` — a `usize` subtraction.
When the byte length is smaller than the room count this underflows: the
debug build panics there and the release build wraps to a huge index whose
`unwrap` then panics, so both are the trap outcome. -/
def readSizes (token : List Char) (numRooms : Nat) : POut (List Nat × Nat) :=
  if byteLen token < numRooms then POut.trap
  else readSizesAux token numRooms (byteLen token - numRooms) numRooms 0

/-- The shape-reading loop of `parse_nft_id`: one character per room starting
at `coord_start + 2 * num_rooms`, with the same fallback expression as the
coordinates (`(shape_index - coord_start) % (nft_id.len() - coord_start)`). -/
def readShapesAux (token : List Char) :
    Nat → Nat → POut (List String)
  | 0, _ => POut.ok []
  | n + 1, idx =>
    match wrapChar token idx (idx - 5) with
    | POut.ok c =>
      match readShapesAux token n (idx + 1) with
      | POut.ok rest => POut.ok (c.toString :: rest)
      | POut.err e => POut.err e
      | POut.trap => POut.trap
    | POut.err e => POut.err e
    | POut.trap => POut.trap

/-- Models `iter().min()` with `unwrap_or(0)` as in the bounding-box computation. -/
def minOf : List Int → Int
  | [] => 0
  | x :: xs => xs.foldl min x

/-- Models `iter().max()` with `unwrap_or(0)`. -/
def maxOf : List Int → Int
  | [] => 0
  | x :: xs => xs.foldl max x

/-- The `char_frequency` entry for `c`: occurrences of `c` in the token (only
ASCII lowercase letters are ever inserted as keys). -/
def countLower (token : List Char) (c : Char) : Nat :=
  (token.filter (fun d => d = c)).length

/-- The key set of the `char_frequency` HashMap: the distinct ASCII-lowercase
characters of the token. Its iteration order is unspecified, so theorems
quantify over permutations of this list. -/
def freqKeys (token : List Char) : List Char :=
  (token.filter isAsciiLowercase).dedup

/-- Models `char_frequency.iter().max_by_key(|&(_, &count)| count)` over a given
iteration `order`, then `.map(|(&c, _)| c.to_string()).unwrap_or("None")`.
Rust's `max_by_key` returns the *last* maximal element of the iteration, so
the fold replaces the current best on ties. -/
def mostFrequentOf (token : List Char) (order : List Char) : String :=
  match order.foldl
      (fun acc c =>
        match acc with
        | none => some (c, countLower token c)
        | some (c0, n0) =>
          if n0 ≤ countLower token c then some (c, countLower token c)
          else some (c0, n0))
      none with
  | some (c, _) => c.toString
  | none => "None"

/-- The per-room excavation of `parse_nft_id`: translate each room's offsets
by its center and drop rooms whose offset list is empty. The index loop
`for i in 0..num_rooms` is expressed as a zip, which is equal to it because
all three lists have length `num_rooms`. -/
def buildRooms (coordinates : List (Int × Int)) (sizes : List Nat)
    (shapes : List String) : List (List (Int × Int)) :=
  ((coordinates.zip (sizes.zip shapes)).map
      (fun x => (get_room_offsets x.2.1 x.2.2).map
        (fun o => (x.1.1 + o.1, x.1.2 + o.2)))).filter
    (fun l => ¬ l.isEmpty)

/-- The record returned by `parse_nft_id` (the `char_frequency` map itself is
`countLower` restricted to `freqKeys` and is not stored). -/
structure ParseResult where
  numRooms : Nat
  coordinates : List (Int × Int)
  sizes : List Nat
  shapes : List String
  xRange : Int × Int
  yRange : Int × Int
  areaSize : Nat
  mostFrequentChar : String
  dungeonType : String
  dungeonLevel : Nat
  finalPoints : List (Int × Int)
deriving DecidableEq, Repr

/-- Function `parse_nft_id` from `src/utils/excavator.rs`; `order` is the (arbitrary)
iteration order of the `char_frequency` HashMap, `oracle`/`fuel` drive the
scatter loop; the result `none` means the scatter loop is still running after
`fuel` iterations. -/
def parse_nft_id (token : List Char) (order : List Char)
    (oracle : Nat → Int × Int) (fuel : Nat) : Option (POut ParseResult) :=
  if ¬ (token.take 4 = ['n', 'f', 't', '1']) ∨ byteLen token < 4 then
    some (POut.err PErrKind.invalidFormat)
  else
    match token.get? 4 with
    | none => some POut.trap
    | some room_char =>
      match toDigit36 room_char with
      | none => some (POut.err PErrKind.invalidRoomChar)
      | some v =>
        let num_rooms := 2 + v
        match readCoordsAux token num_rooms num_rooms 5 with
        | POut.err e => some (POut.err e)
        | POut.trap => some POut.trap
        | POut.ok coordinates =>
          match readSizes token num_rooms with
          | POut.err e => some (POut.err e)
          | POut.trap => some POut.trap
          | POut.ok (sizes, area_size) =>
            match readShapesAux token num_rooms (5 + 2 * num_rooms) with
            | POut.err e => some (POut.err e)
            | POut.trap => some POut.trap
            | POut.ok shapes =>
              let min_x := minOf (coordinates.map Prod.fst) - 1
              let max_x := maxOf (coordinates.map Prod.fst) + 1
              let min_y := minOf (coordinates.map Prod.snd) - 1
              let max_y := maxOf (coordinates.map Prod.snd) + 1
              let most_frequent := mostFrequentOf token order
              let all_excavated :=
                (buildRooms coordinates sizes shapes).flatten ++
                  (generate_tunnels coordinates).flatten
              match add_random_excavated_points all_excavated
                  (min_x, max_x) (min_y, max_y) (area_size / 50) oracle fuel with
              | none => none
              | some final =>
                some (POut.ok
                  ⟨num_rooms, coordinates, sizes, shapes,
                   (min_x, max_x), (min_y, max_y), area_size,
                   most_frequent, get_dungeon_type most_frequent,
                   get_dungeon_level area_size, final⟩)

/-! ## Helper lemmas: integer ranges and the dedup fold of `get_room_offsets` -/

theorem mem_intRange {x a b : Int} : x ∈ intRange a b ↔ a ≤ x ∧ x ≤ b := by
  unfold intRange
  rw [List.mem_map]
  constructor
  · rintro ⟨k, hk, rfl⟩
    rw [List.mem_range] at hk
    omega
  · intro h
    refine ⟨(x - a).toNat, ?_, ?_⟩
    · rw [List.mem_range]
      omega
    · omega

theorem intRange_self (a : Int) : intRange a a = [a] := by
  unfold intRange
  have h : (a + 1 - a).toNat = 1 := by omega
  rw [h]
  have h1 : List.range 1 = [0] := rfl
  rw [h1]
  simp

theorem intRange_eq_nil {a b : Int} (h : b < a) : intRange a b = [] := by
  unfold intRange
  have h0 : (b + 1 - a).toNat = 0 := by omega
  rw [h0]
  rfl

theorem i32Wrap_eq_self {x : Int} (h1 : -2147483648 ≤ x) (h2 : x < 2147483648) :
    i32Wrap x = x := by
  unfold i32Wrap
  omega

/-- Every entry of every base pattern has both coordinates in `[-3, 3]`, so
the range-bound expressions `b ± s1` stay inside `i32` whenever
`|s1| ≤ 2^31 - 4`. -/
theorem base_offsets_bounded (sh : String) :
    ∀ b ∈ base_offsets sh, -3 ≤ b.1 ∧ b.1 ≤ 3 ∧ -3 ≤ b.2 ∧ b.2 ≤ 3 := by
  unfold base_offsets
  split <;> decide

/-- Membership in one expanded base square, in the regime where none of the
four `i32` bound expressions wraps. -/
theorem mem_expandBase {s1 : Int} {b p : Int × Int}
    (hs : -2147483644 ≤ s1 ∧ s1 ≤ 2147483644)
    (hb : -3 ≤ b.1 ∧ b.1 ≤ 3 ∧ -3 ≤ b.2 ∧ b.2 ≤ 3) :
    p ∈ expandBase s1 b ↔
      (b.1 - s1 ≤ p.1 ∧ p.1 ≤ b.1 + s1) ∧ (b.2 - s1 ≤ p.2 ∧ p.2 ≤ b.2 + s1) := by
  unfold expandBase
  rw [show i32Wrap (b.1 - s1) = b.1 - s1 from i32Wrap_eq_self (by omega) (by omega),
    show i32Wrap (b.1 + s1) = b.1 + s1 from i32Wrap_eq_self (by omega) (by omega),
    show i32Wrap (b.2 - s1) = b.2 - s1 from i32Wrap_eq_self (by omega) (by omega),
    show i32Wrap (b.2 + s1) = b.2 + s1 from i32Wrap_eq_self (by omega) (by omega)]
  simp only [List.mem_flatMap, List.mem_map]
  constructor
  · rintro ⟨x, hx, y, hy, rfl⟩
    exact ⟨mem_intRange.mp hx, mem_intRange.mp hy⟩
  · intro h
    exact ⟨p.1, mem_intRange.mpr h.1, p.2, mem_intRange.mpr h.2, rfl⟩

theorem expandBase_zero {b : Int × Int}
    (hb : -3 ≤ b.1 ∧ b.1 ≤ 3 ∧ -3 ≤ b.2 ∧ b.2 ≤ 3) :
    expandBase 0 b = [b] := by
  unfold expandBase
  rw [show i32Wrap (b.1 - 0) = b.1 from by rw [sub_zero]; exact i32Wrap_eq_self (by omega) (by omega),
    show i32Wrap (b.1 + 0) = b.1 from by rw [add_zero]; exact i32Wrap_eq_self (by omega) (by omega),
    show i32Wrap (b.2 - 0) = b.2 from by rw [sub_zero]; exact i32Wrap_eq_self (by omega) (by omega),
    show i32Wrap (b.2 + 0) = b.2 from by rw [add_zero]; exact i32Wrap_eq_self (by omega) (by omega),
    intRange_self, intRange_self]
  simp

/-- A negative half-width (any `s1 ≤ -1` that does not make the x-bound
expressions wrap) yields an empty x-range, hence no cells. -/
theorem expandBase_empty_of_neg {s1 : Int} {b : Int × Int}
    (hs1 : s1 ≤ -1) (hs2 : -2147483644 ≤ s1)
    (hb : -3 ≤ b.1 ∧ b.1 ≤ 3 ∧ -3 ≤ b.2 ∧ b.2 ≤ 3) :
    expandBase s1 b = [] := by
  unfold expandBase
  rw [show i32Wrap (b.1 - s1) = b.1 - s1 from i32Wrap_eq_self (by omega) (by omega),
    show i32Wrap (b.1 + s1) = b.1 + s1 from i32Wrap_eq_self (by omega) (by omega),
    intRange_eq_nil (by omega)]
  rfl

theorem addUnique_mem (acc : List (Int × Int)) (a p : Int × Int) :
    p ∈ addUnique acc a ↔ p ∈ acc ∨ p = a := by
  unfold addUnique
  split
  · rename_i ha
    constructor
    · exact fun h => Or.inl h
    · rintro (h | rfl)
      · exact h
      · exact ha
  · simp

theorem addUnique_nodup (acc : List (Int × Int)) (a : Int × Int) (h : acc.Nodup) :
    (addUnique acc a).Nodup := by
  unfold addUnique
  split
  · exact h
  · rename_i ha
    rw [List.nodup_append]
    refine ⟨h, List.nodup_singleton a, ?_⟩
    intro b hb hb1
    simp at hb1
    subst hb1
    exact ha hb

theorem foldl_addUnique_mem :
    ∀ (l acc : List (Int × Int)) (p : Int × Int),
      p ∈ l.foldl addUnique acc ↔ p ∈ acc ∨ p ∈ l
  | [], acc, p => by simp
  | a :: l, acc, p => by
    rw [List.foldl_cons, foldl_addUnique_mem l (addUnique acc a) p, addUnique_mem]
    simp
    tauto

theorem foldl_addUnique_nodup :
    ∀ (l acc : List (Int × Int)), acc.Nodup → (l.foldl addUnique acc).Nodup
  | [], acc, h => h
  | a :: l, acc, h =>
    foldl_addUnique_nodup l (addUnique acc a) (addUnique_nodup acc a h)

theorem foldl_addUnique_of_nodup :
    ∀ (l acc : List (Int × Int)), (acc ++ l).Nodup → l.foldl addUnique acc = acc ++ l
  | [], acc, _ => by simp
  | a :: l, acc, h => by
    rw [List.append_cons] at h
    have ha : a ∉ acc := by
      have hd := (List.nodup_append.mp (List.nodup_append.mp h).1).2.2
      intro hmem
      exact hd hmem (List.mem_singleton_self a)
    rw [List.foldl_cons]
    have hstep : addUnique acc a = acc ++ [a] := by
      unfold addUnique
      rw [if_neg ha]
    rw [hstep, foldl_addUnique_of_nodup l (acc ++ [a]) h]
    simp

theorem base_offsets_nodup (s : String) : (base_offsets s).Nodup := by
  unfold base_offsets
  split <;> decide

theorem base_offsets_eq_nil_of_unrecognized {s : String}
    (h : s ∉ recognized_shapes) : base_offsets s = [] := by
  unfold base_offsets
  split <;> first
    | rfl
    | exact absurd (by decide) h

theorem flatMap_expandBase_zero :
    ∀ l : List (Int × Int),
      (∀ b ∈ l, -3 ≤ b.1 ∧ b.1 ≤ 3 ∧ -3 ≤ b.2 ∧ b.2 ≤ 3) →
      l.flatMap (expandBase 0) = l
  | [], _ => rfl
  | a :: l, h => by
    rw [List.flatMap_cons, expandBase_zero (h a (by simp)),
      flatMap_expandBase_zero l (fun b hb => h b (by simp [hb]))]
    rfl

theorem flatMap_expandBase_empty {s1 : Int} (hs1 : s1 ≤ -1) (hs2 : -2147483644 ≤ s1) :
    ∀ l : List (Int × Int),
      (∀ b ∈ l, -3 ≤ b.1 ∧ b.1 ≤ 3 ∧ -3 ≤ b.2 ∧ b.2 ≤ 3) →
      l.flatMap (expandBase s1) = []
  | [], _ => rfl
  | a :: l, h => by
    rw [List.flatMap_cons, expandBase_empty_of_neg hs1 hs2 (h a (by simp)),
      flatMap_expandBase_empty hs1 hs2 l (fun b hb => h b (by simp [hb]))]
    rfl

/-! ## Helper lemmas: tunnels -/

theorem tunnelHorizAux_fst_ne :
    ∀ (n : Nat) (x y ex : Int), (ex - x).natAbs = n →
      ∀ p ∈ tunnelHorizAux n x y ex, p.1 ≠ ex := by
  intro n
  induction n with
  | zero =>
    intro x y ex _ p hp
    simp [tunnelHorizAux] at hp
  | succ m ih =>
    intro x y ex h p hp
    rw [tunnelHorizAux] at hp
    rcases List.mem_cons.mp hp with rfl | hp
    · intro he
      simp at he
      omega
    · by_cases hlt : x < ex
      · rw [if_pos hlt] at hp
        exact ih (x + 1) y ex (by omega) p hp
      · rw [if_neg hlt] at hp
        exact ih (x - 1) y ex (by omega) p hp

theorem tunnelVertAux_snd_ne :
    ∀ (n : Nat) (x y ey : Int), (ey - y).natAbs = n →
      ∀ p ∈ tunnelVertAux n x y ey, p.2 ≠ ey := by
  intro n
  induction n with
  | zero =>
    intro x y ey _ p hp
    simp [tunnelVertAux] at hp
  | succ m ih =>
    intro x y ey h p hp
    rw [tunnelVertAux] at hp
    rcases List.mem_cons.mp hp with rfl | hp
    · intro he
      simp at he
      omega
    · by_cases hlt : y < ey
      · rw [if_pos hlt] at hp
        exact ih x (y + 1) ey (by omega) p hp
      · rw [if_neg hlt] at hp
        exact ih x (y - 1) ey (by omega) p hp

theorem create_tunnel_self (p : Int × Int) : create_tunnel p p = [] := by
  unfold create_tunnel
  rw [Int.sub_self, Int.sub_self]
  rfl

theorem end_not_mem_create_tunnel (s e : Int × Int) : e ∉ create_tunnel s e := by
  unfold create_tunnel
  intro h
  rcases List.mem_append.mp h with h | h
  · exact tunnelHorizAux_fst_ne _ s.1 s.2 e.1 rfl e h rfl
  · exact tunnelVertAux_snd_ne _ e.1 s.2 e.2 rfl e h rfl

theorem generate_tunnels_length :
    ∀ cs : List (Int × Int), (generate_tunnels cs).length = cs.length / 2
  | [] => rfl
  | [x] => by
    have h : generate_tunnels [x] = [] := rfl
    rw [h]
    simp
  | a :: b :: rest => by
    have ih := generate_tunnels_length rest
    simp only [generate_tunnels, List.length_cons, ih]
    omega

theorem generate_tunnels_get :
    ∀ (cs : List (Int × Int)) (i : Nat) (a b : Int × Int),
      cs.get? (2 * i) = some a → cs.get? (2 * i + 1) = some b →
      (generate_tunnels cs).get? i = some (create_tunnel a b)
  | [], _, _, _ => by
    intro h _
    simp at h
  | [x], i, a, b => by
    intro _ h2
    have : ([x] : List (Int × Int)).length ≤ 2 * i + 1 := by simp
    rw [List.get?_eq_none.mpr this] at h2
    exact absurd h2 (by simp)
  | x :: y :: rest, i, a, b => by
    intro h1 h2
    cases i with
    | zero =>
      have ha : x = a := by simpa using h1
      have hb : y = b := by simpa using h2
      subst ha
      subst hb
      rfl
    | succ j =>
      have e1 : 2 * (j + 1) = 2 * j + 1 + 1 := by ring
      have e2 : 2 * (j + 1) + 1 = 2 * j + 1 + 1 + 1 := by ring
      rw [e1, List.get?_cons_succ, List.get?_cons_succ] at h1
      rw [e2, List.get?_cons_succ, List.get?_cons_succ] at h2
      have ih := generate_tunnels_get rest j a b h1 h2
      simpa [generate_tunnels] using ih

/-! ## Helper lemmas: the scatter loop -/

theorem insertPoint_mem (s : List (Int × Int)) (p q : Int × Int) :
    q ∈ insertPoint s p ↔ q ∈ s ∨ q = p := by
  unfold insertPoint
  split
  · rename_i hp
    constructor
    · exact fun h => Or.inl h
    · rintro (h | rfl)
      · exact h
      · exact hp
  · simp [or_comm]

theorem insertPoint_nodup (s : List (Int × Int)) (p : Int × Int) (h : s.Nodup) :
    (insertPoint s p).Nodup := by
  unfold insertPoint
  split
  · exact h
  · rename_i hp
    exact List.Nodup.cons hp h

theorem insertPoint_length (s : List (Int × Int)) (p : Int × Int) :
    s.length ≤ (insertPoint s p).length ∧ (insertPoint s p).length ≤ s.length + 1 := by
  unfold insertPoint
  split <;> simp

theorem foldl_insertPoint_mem :
    ∀ (l acc : List (Int × Int)) (q : Int × Int),
      q ∈ l.foldl insertPoint acc ↔ q ∈ acc ∨ q ∈ l
  | [], acc, q => by simp
  | a :: l, acc, q => by
    rw [List.foldl_cons, foldl_insertPoint_mem l (insertPoint acc a) q, insertPoint_mem]
    simp
    tauto

theorem foldl_insertPoint_nodup :
    ∀ (l acc : List (Int × Int)), acc.Nodup → (l.foldl insertPoint acc).Nodup
  | [], _, h => h
  | a :: l, acc, h =>
    foldl_insertPoint_nodup l (insertPoint acc a) (insertPoint_nodup acc a h)

theorem foldl_insertPoint_length :
    ∀ (l acc : List (Int × Int)), (l.foldl insertPoint acc).length ≤ acc.length + l.length
  | [], acc => by simp
  | a :: l, acc => by
    rw [List.foldl_cons]
    have h1 := foldl_insertPoint_length l (insertPoint acc a)
    have h2 := insertPoint_length acc a
    simp only [List.length_cons]
    omega

theorem dedupPoints_mem (l : List (Int × Int)) (q : Int × Int) :
    q ∈ dedupPoints l ↔ q ∈ l := by
  unfold dedupPoints
  rw [foldl_insertPoint_mem]
  simp

theorem dedupPoints_nodup (l : List (Int × Int)) : (dedupPoints l).Nodup :=
  foldl_insertPoint_nodup l [] List.nodup_nil

theorem dedupPoints_length_le (l : List (Int × Int)) :
    (dedupPoints l).length ≤ l.length := by
  have := foldl_insertPoint_length l []
  simpa [dedupPoints] using this

/-- The loop invariant of `scatterLoop`: a `some` result is duplicate-free,
contains the start set, has exactly the target length whenever the start set
is not already larger, and every element is either a start element or an
oracle sample. -/
theorem scatterLoop_invariant (oracle : Nat → Int × Int) (target : Nat) :
    ∀ (fuel : Nat) (s : List (Int × Int)) (k : Nat) (out : List (Int × Int)),
      scatterLoop oracle target fuel s k = some out → s.Nodup →
      out.Nodup ∧ (∀ p, p ∈ s → p ∈ out) ∧
      (s.length ≤ target → out.length = target) ∧
      (∀ p, p ∈ out → p ∈ s ∨ ∃ j, p = oracle j) := by
  intro fuel
  induction fuel with
  | zero =>
    intro s k out h hs
    unfold scatterLoop at h
    split at h
    · rename_i hle
      injection h with h
      subst h
      exact ⟨hs, fun p hp => hp, fun h2 => by omega, fun p hp => Or.inl hp⟩
    · exact absurd h (by simp)
  | succ f ih =>
    intro s k out h hs
    rw [scatterLoop] at h
    split at h
    · rename_i hle
      injection h with h
      subst h
      exact ⟨hs, fun p hp => hp, fun h2 => by omega, fun p hp => Or.inl hp⟩
    · rename_i hgt
      obtain ⟨h1, h2, h3, h4⟩ :=
        ih (insertPoint s (oracle k)) (k + 1) out h (insertPoint_nodup s (oracle k) hs)
      refine ⟨h1, ?_, ?_, ?_⟩
      · intro p hp
        exact h2 p ((insertPoint_mem s (oracle k) p).mpr (Or.inl hp))
      · intro _
        apply h3
        have := insertPoint_length s (oracle k)
        omega
      · intro p hp
        rcases h4 p hp with hin | hj
        · rcases (insertPoint_mem s (oracle k) p).mp hin with h' | h'
          · exact Or.inl h'
          · exact Or.inr ⟨k, h'⟩
        · exact Or.inr hj

/-! ## Helper lemmas: the three reading loops of `parse_nft_id` -/

theorem readCoordsAux_length (token : List Char) (numRooms : Nat) :
    ∀ (n idx : Nat) (l : List (Int × Int)),
      readCoordsAux token numRooms n idx = POut.ok l → l.length = n := by
  intro n
  induction n with
  | zero =>
    intro idx l h
    unfold readCoordsAux at h
    injection h with h
    subst h
    rfl
  | succ m ih =>
    intro idx l h
    unfold readCoordsAux at h
    split at h
    · split at h
      · split at h
        · rename_i rest hrest
          injection h with h
          subst h
          simp [ih (idx + 2) rest hrest]
        · exact absurd h (by simp)
        · exact absurd h (by simp)
      · exact absurd h (by simp)
      · exact absurd h (by simp)
    · exact absurd h (by simp)
    · exact absurd h (by simp)

theorem readSizesAux_length (token : List Char) (numRooms sizeStart : Nat) :
    ∀ (n i : Nat) (l : List Nat) (area : Nat),
      readSizesAux token numRooms sizeStart n i = POut.ok (l, area) → l.length = n := by
  intro n
  induction n with
  | zero =>
    intro i l area h
    unfold readSizesAux at h
    injection h with h
    rw [Prod.mk.injEq] at h
    obtain ⟨h, -⟩ := h
    subst h
    rfl
  | succ m ih =>
    intro i l area h
    unfold readSizesAux at h
    split at h
    · exact absurd h (by simp)
    · split at h
      · rename_i c hc rest harea hrest
        injection h with h
        rw [Prod.mk.injEq] at h
        obtain ⟨h, -⟩ := h
        subst h
        simp [ih (i + 1) _ _ hrest]
      · exact absurd h (by simp)
      · exact absurd h (by simp)

theorem readShapesAux_length (token : List Char) :
    ∀ (n idx : Nat) (l : List String),
      readShapesAux token n idx = POut.ok l → l.length = n := by
  intro n
  induction n with
  | zero =>
    intro idx l h
    unfold readShapesAux at h
    injection h with h
    subst h
    rfl
  | succ m ih =>
    intro idx l h
    unfold readShapesAux at h
    split at h
    · split at h
      · rename_i rest hrest
        injection h with h
        subst h
        simp [ih (idx + 1) rest hrest]
      · exact absurd h (by simp)
      · exact absurd h (by simp)
    · exact absurd h (by simp)
    · exact absurd h (by simp)

/-- Inversion of a successful `parse_nft_id` run: a decomposition into its
stage results, pinning down every field of the returned record. -/
theorem parse_ok_inversion (token order : List Char) (oracle : Nat → Int × Int)
    (fuel : Nat) (r : ParseResult)
    (h : parse_nft_id token order oracle fuel = some (POut.ok r)) :
    ∃ room_char v coords sizes area shapes final,
      token.get? 4 = some room_char ∧
      toDigit36 room_char = some v ∧
      readCoordsAux token (2 + v) (2 + v) 5 = POut.ok coords ∧
      readSizes token (2 + v) = POut.ok (sizes, area) ∧
      readShapesAux token (2 + v) (5 + 2 * (2 + v)) = POut.ok shapes ∧
      add_random_excavated_points
        ((buildRooms coords sizes shapes).flatten ++
          (generate_tunnels coords).flatten)
        (minOf (coords.map Prod.fst) - 1, maxOf (coords.map Prod.fst) + 1)
        (minOf (coords.map Prod.snd) - 1, maxOf (coords.map Prod.snd) + 1)
        (area / 50) oracle fuel = some final ∧
      r = ⟨2 + v, coords, sizes, shapes,
           (minOf (coords.map Prod.fst) - 1, maxOf (coords.map Prod.fst) + 1),
           (minOf (coords.map Prod.snd) - 1, maxOf (coords.map Prod.snd) + 1),
           area, mostFrequentOf token order,
           get_dungeon_type (mostFrequentOf token order),
           get_dungeon_level area, final⟩ := by
  unfold parse_nft_id at h
  split at h
  · exact absurd h (by simp)
  · split at h
    · exact absurd h (by simp)
    · rename_i room_char hrc
      split at h
      · exact absurd h (by simp)
      · rename_i v hv
        dsimp only [] at h
        split at h
        · exact absurd h (by simp)
        · exact absurd h (by simp)
        · rename_i coords hcoords
          split at h
          · exact absurd h (by simp)
          · exact absurd h (by simp)
          · rename_i sizes area hsizes
            split at h
            · exact absurd h (by simp)
            · exact absurd h (by simp)
            · rename_i shapes hshapes
              split at h
              · exact absurd h (by simp)
              · rename_i final hfinal
                injection h with h
                injection h with h
                exact ⟨room_char, v, coords, sizes, area, shapes, final,
                  hrc, hv, hcoords, hsizes, hshapes, hfinal, h.symm⟩

theorem length_le_byteLen (token : List Char) : token.length ≤ byteLen token := by
  induction token with
  | nil => simp [byteLen]
  | cons c t ih =>
    have h1 := Char.utf8Size_pos c
    simp only [byteLen, List.map_cons, List.sum_cons, List.length_cons]
    simp only [byteLen] at ih
    omega

theorem char_toNat_lt (c : Char) : c.toNat < 1114112 := by
  have := c.valid
  rcases this with h | ⟨h1, h2⟩ <;> simp [Char.toNat] <;> omega

/-! ## Claim theorems -/

/-- C10: for every shape string, the offset expansion at size 0 returns the
empty list (the per-base-point range `[b + 1, b - 1]` is empty), so a room of
decoded size 0 contributes no excavated cells even for recognized shapes. -/
theorem c10_size_zero_yields_empty (shape : String) : get_room_offsets 0 shape = [] := by
  unfold get_room_offsets
  have h0 : i32Wrap (u32AsI32 0 - 1) = -1 := by decide
  rw [h0, flatMap_expandBase_empty (by omega) (by omega) _
    (base_offsets_bounded (lowerString shape))]
  rfl

/-- C5 (counterexample): the original claim fails for `u32` sizes whose
`i32` reinterpretation is negative. At size `3221225472` (= 3·2^30 ≥ 2^31,
reinterpreted as the negative `i32` `-1073741824`), the recognized shape
`"0"` — whose base pattern is the single cell `(0,0)` — expands to the empty
list, although the size is ≥ 1 and the claimed filled square around `(0,0)`
is nonempty. -/
theorem c5_large_size_empty :
    (1 : Nat) ≤ 3221225472 ∧
    base_offsets (lowerString "0") = [(0, 0)] ∧
    get_room_offsets 3221225472 "0" = [] ∧
    ((0 : Int), (0 : Int)) ∉ get_room_offsets 3221225472 "0" := by
  decide

/-- C5 (amended): for every shape symbol and every size with
`1 ≤ size ≤ 2^31 - 3` — in particular every size the decoder can produce —
`get_room_offsets` returns exactly the deduplicated set of cells obtained by
replacing each base offset with the filled square of half-width `size - 1`
around it; size 1 returns exactly the base pattern, and an unrecognized
symbol yields the empty list. For sizes in `[2^31 + 5, 2^32)`, whose `i32`
reinterpretation makes the half-width negative, the expansion is empty for
every shape. (For the handful of sizes within 4 of `2^31` the `i32` bound
arithmetic overflows: debug builds panic and release builds wrap; those
sizes are excluded.) -/
theorem c5_offset_expansion (shape : String) (size : Nat) (hsize : 1 ≤ size)
    (hsmall : size ≤ 2147483645) :
    (get_room_offsets size shape).Nodup ∧
    (∀ p : Int × Int, p ∈ get_room_offsets size shape ↔
      ∃ b ∈ base_offsets (lowerString shape),
        b.1 - ((size : Int) - 1) ≤ p.1 ∧ p.1 ≤ b.1 + ((size : Int) - 1) ∧
        b.2 - ((size : Int) - 1) ≤ p.2 ∧ p.2 ≤ b.2 + ((size : Int) - 1)) ∧
    (size = 1 → get_room_offsets size shape = base_offsets (lowerString shape)) ∧
    (lowerString shape ∉ recognized_shapes → get_room_offsets size shape = []) ∧
    (∀ big : Nat, 2147483653 ≤ big → big < 4294967296 →
      get_room_offsets big shape = []) := by
  have hcast : i32Wrap (u32AsI32 size - 1) = (size : Int) - 1 := by
    unfold u32AsI32 i32Wrap
    omega
  refine ⟨foldl_addUnique_nodup _ [] List.nodup_nil, ?_, ?_, ?_, ?_⟩
  · intro p
    unfold get_room_offsets
    rw [hcast, foldl_addUnique_mem]
    simp only [List.not_mem_nil, false_or]
    rw [List.mem_flatMap]
    constructor
    · rintro ⟨b, hb, hp⟩
      obtain ⟨⟨h1, h2⟩, h3, h4⟩ :=
        (mem_expandBase (by omega) (base_offsets_bounded (lowerString shape) b hb)).mp hp
      exact ⟨b, hb, h1, h2, h3, h4⟩
    · rintro ⟨b, hb, h1, h2, h3, h4⟩
      exact ⟨b, hb,
        (mem_expandBase (by omega) (base_offsets_bounded (lowerString shape) b hb)).mpr
          ⟨⟨h1, h2⟩, h3, h4⟩⟩
  · rintro rfl
    unfold get_room_offsets
    have h1 : i32Wrap (u32AsI32 1 - 1) = 0 := by decide
    rw [h1, flatMap_expandBase_zero _ (base_offsets_bounded (lowerString shape))]
    exact foldl_addUnique_of_nodup _ [] (by simpa using base_offsets_nodup (lowerString shape))
  · intro hun
    unfold get_room_offsets
    rw [base_offsets_eq_nil_of_unrecognized hun]
    rfl
  · intro big hbig1 hbig2
    unfold get_room_offsets
    have hneg : i32Wrap (u32AsI32 big - 1) = (big : Int) - 4294967297 := by
      unfold u32AsI32 i32Wrap
      omega
    rw [hneg, flatMap_expandBase_empty (by omega) (by omega) _
      (base_offsets_bounded (lowerString shape))]
    rfl

theorem c5_offset_expansion_witness :
    (1 ≤ 2 ∧ 2 ≤ 2147483645) ∧
    ((get_room_offsets 2 "8").Nodup ∧
    (∀ p : Int × Int, p ∈ get_room_offsets 2 "8" ↔
      ∃ b ∈ base_offsets (lowerString "8"),
        b.1 - (((2 : Nat) : Int) - 1) ≤ p.1 ∧ p.1 ≤ b.1 + (((2 : Nat) : Int) - 1) ∧
        b.2 - (((2 : Nat) : Int) - 1) ≤ p.2 ∧ p.2 ≤ b.2 + (((2 : Nat) : Int) - 1)) ∧
    ((2 : Nat) = 1 → get_room_offsets 2 "8" = base_offsets (lowerString "8")) ∧
    (lowerString "8" ∉ recognized_shapes → get_room_offsets 2 "8" = []) ∧
    (∀ big : Nat, 2147483653 ≤ big → big < 4294967296 →
      get_room_offsets big "8" = [])) :=
  ⟨by decide, c5_offset_expansion "8" 2 (by decide) (by decide)⟩

/-- C8: tunnels pair consecutive centers `(0,1), (2,3), …` (an unpaired
trailing center yields no tunnel), each tunnel records the current point
before every unit step — all-horizontal, then all-vertical — and excludes the
endpoint; `tunnel((0,0),(3,2))` is exactly the stated 5-point list and
`tunnel(p,p)` is empty. -/
theorem c8_tunnel_pairing (cs : List (Int × Int)) (i : Nat) (a b : Int × Int)
    (ha : cs.get? (2 * i) = some a) (hb : cs.get? (2 * i + 1) = some b) :
    (generate_tunnels cs).length = cs.length / 2 ∧
    (generate_tunnels cs).get? i = some (create_tunnel a b) ∧
    create_tunnel (0, 0) (3, 2) = [(0, 0), (1, 0), (2, 0), (3, 0), (3, 1)] ∧
    (∀ p : Int × Int, create_tunnel p p = []) ∧
    (∀ s e : Int × Int, e ∉ create_tunnel s e) :=
  ⟨generate_tunnels_length cs, generate_tunnels_get cs i a b ha hb,
   by decide, create_tunnel_self, end_not_mem_create_tunnel⟩

theorem c8_tunnel_pairing_witness :
    (generate_tunnels [((0 : Int), (0 : Int)), ((3 : Int), (2 : Int))]).length =
      ([((0 : Int), (0 : Int)), ((3 : Int), (2 : Int))] : List (Int × Int)).length / 2 ∧
    (generate_tunnels [((0 : Int), (0 : Int)), ((3 : Int), (2 : Int))]).get? 0 =
      some (create_tunnel (0, 0) (3, 2)) ∧
    create_tunnel (0, 0) (3, 2) = [(0, 0), (1, 0), (2, 0), (3, 0), (3, 1)] ∧
    (∀ p : Int × Int, create_tunnel p p = []) ∧
    (∀ s e : Int × Int, e ∉ create_tunnel s e) :=
  c8_tunnel_pairing [((0 : Int), (0 : Int)), ((3 : Int), (2 : Int))] 0 (0, 0) (3, 2)
    (by decide) (by decide)

/-- C6: the scatter loop of `add_random_excavated_points` never terminates
when the box cannot supply the requested number of distinct points — there is
no capacity check and no `ScatterCapacityExceeded` error: on a 1-cell box
with one existing point and one requested addition, the loop is still running
after every number of iterations. -/
theorem c6_scatter_never_terminates (oracle : Nat → Int × Int) (fuel : Nat)
    (hbox : ∀ k, oracle k = ((0 : Int), (0 : Int))) :
    add_random_excavated_points [((0 : Int), (0 : Int))] (0, 0) (0, 0) 1 oracle fuel = none := by
  have key : ∀ (f k : Nat), scatterLoop oracle 2 f [((0 : Int), (0 : Int))] k = none := by
    intro f
    induction f with
    | zero => intro k; rfl
    | succ g ih =>
      intro k
      have hstep : scatterLoop oracle 2 (g + 1) [((0 : Int), (0 : Int))] k =
          scatterLoop oracle 2 g
            (insertPoint [((0 : Int), (0 : Int))] (oracle k)) (k + 1) := by
        rw [scatterLoop]
        rw [if_neg (by decide)]
      rw [hstep]
      have hins : insertPoint [((0 : Int), (0 : Int))] (oracle k) =
          [((0 : Int), (0 : Int))] := by
        rw [hbox k]
        decide
      rw [hins]
      exact ih (k + 1)
  unfold add_random_excavated_points
  exact key fuel 0

theorem c6_scatter_never_terminates_witness :
    add_random_excavated_points [((0 : Int), (0 : Int))] (0, 0) (0, 0) 1
      (fun _ => ((0 : Int), (0 : Int))) 5 = none :=
  c6_scatter_never_terminates (fun _ => ((0 : Int), (0 : Int))) 5 (fun _ => rfl)

/-- C4: for every possible size character (any `char` at all, including
non-alphanumerics, whose square root is NaN and rounds to 0) and every
reachable room count (2..37), the signed size formula is non-negative, and
the `as u32` cast therefore returns exactly the formula's value — no negative
intermediate ever arises, so none is ever wrapped into a large unsigned
size. -/
theorem c4_size_formula_nonneg (numRooms : Nat) (c : Char)
    (h2 : 2 ≤ numRooms) (h37 : numRooms ≤ 37) :
    0 ≤ sizeI32 numRooms c ∧ ((sizeU32 numRooms c : Int) = sizeI32 numRooms c) := by
  have hsq37 : isqrt numRooms ≤ 6 := isqrt_le_of_lt_sq (by omega)
  have hr4 : roundSqrtDiv4 numRooms ≤ 2 := by
    unfold roundSqrtDiv4
    omega
  have hlow : 0 ≤ sizeI32 numRooms c := by
    unfold sizeI32
    dsimp only
    split
    · omega
    · have : (0 : Int) ≤ (roundMul15Sqrt (char_to_num c).toNat : Int) := by positivity
      omega
  have hvbound : (char_to_num c).toNat < 1114112 := by
    unfold char_to_num
    have hb1 := char_toNat_lt c
    have hb2 := char_toNat_lt (toAsciiLower c)
    split <;> omega
  have hup : sizeI32 numRooms c < 4294967296 := by
    have hsqv : isqrt (9 * (char_to_num c).toNat) ≤ 3166 :=
      isqrt_le_of_lt_sq (by omega)
    have ht : roundMul15Sqrt (char_to_num c).toNat ≤ 1583 := by
      unfold roundMul15Sqrt
      omega
    unfold sizeI32
    dsimp only
    split <;> omega
  refine ⟨hlow, ?_⟩
  unfold sizeU32
  rw [Int.emod_eq_of_lt hlow hup, Int.toNat_of_nonneg hlow]

theorem c4_size_formula_nonneg_witness :
    (2 ≤ 2 ∧ 2 ≤ 37) ∧
    (0 ≤ sizeI32 2 'z' ∧ ((sizeU32 2 'z' : Int) = sizeI32 2 'z')) :=
  ⟨by decide, c4_size_formula_nonneg 2 'z' (by decide) (by decide)⟩

/-- C1 (code-bug evidence): on the token `"nft10aabbab"` the letters `a` and
`b` are tied at 3 occurrences each; the HashMap-order fold that implements
`max_by_key` returns `"a"` under one valid key order and `"b"` under another
(both orders are permutations of the map's key set), and the two orders give
different `DungeonType`s — so DominantCharacter is neither earliest-first-
occurrence tie-broken nor reproducible across runs. -/
theorem c1_dominant_depends_on_hash_order :
    (['n', 'f', 't', 'b', 'a'] : List Char).Perm (freqKeys ("nft10aabbab".data)) ∧
    (['n', 'f', 't', 'a', 'b'] : List Char).Perm (freqKeys ("nft10aabbab".data)) ∧
    mostFrequentOf ("nft10aabbab".data) ['n', 'f', 't', 'b', 'a'] = "a" ∧
    mostFrequentOf ("nft10aabbab".data) ['n', 'f', 't', 'a', 'b'] = "b" ∧
    get_dungeon_type (mostFrequentOf ("nft10aabbab".data) ['n', 'f', 't', 'b', 'a']) ≠
      get_dungeon_type (mostFrequentOf ("nft10aabbab".data) ['n', 'f', 't', 'a', 'b']) := by
  decide

/-- C2 (code-bug evidence): the three short-token shapes all panic instead of
returning a decoding error — `"nft1"` (length 4: `chars().nth(4).unwrap()` on
`None`), `"nft10"` (length 5: `% 0` in the coordinate wraparound), and
`"nft150"` (length 6 < RoomCount 7: `len - num_rooms` underflows and the
size `unwrap` panics). -/
theorem c2_short_tokens_trap :
    parse_nft_id ("nft1".data) [] (fun _ => ((0 : Int), (0 : Int))) 0 = some POut.trap ∧
    parse_nft_id ("nft10".data) [] (fun _ => ((0 : Int), (0 : Int))) 0 = some POut.trap ∧
    parse_nft_id ("nft150".data) [] (fun _ => ((0 : Int), (0 : Int))) 0 = some POut.trap := by
  decide

/-- C3 (code-bug evidence): on `"nft13abcd"` (RoomCount 5, wrap region
`"abcd"`), the x-character of room 2 is read at fallback index
`(9 - 5) % 4 = 0` **into the full token**, yielding `'n'` (the first letter
of the prefix, center x = 51), whereas cycling over the substring following
the prefix+count region — as the spec states — would read position
`5 + 0 = 5`, yielding `'a'` (center x = 22). -/
theorem c3_wrap_reads_from_token_start :
    readCoordsAux ("nft13abcd".data) 5 5 5 =
      POut.ok [(22, 25), (27, 29), (51, 34), (65, 2), (51, 34)] ∧
    wrapChar ("nft13abcd".data) 9 4 = POut.ok 'n' ∧
    ("nft13abcd".data).get? 0 = some 'n' ∧
    ("nft13abcd".data).get? 5 = some 'a' ∧
    coordVal 'n' 5 = 51 ∧
    coordVal 'a' 5 = 22 ∧
    ((51 : Int) ≠ 22) := by
  decide

/-- Oracle for the C7 counterexample: in-box samples for the box
`[0,2] × [0,0]`. -/
def oracleC7 : Nat → Int × Int := fun k => if k = 0 then (1, 0) else (2, 0)

/-- C7 (counterexample): with the duplicate-bearing input list
`[(0,0), (0,0)]` (1 distinct coordinate) and requested count N = 1, the
scatter step returns a 3-element set — 2 additional distinct coordinates,
not exactly N = 1 — because the loop target is the input *list length* plus
N. All samples are inside the box. -/
theorem c7_extra_points_on_duplicates :
    (add_random_excavated_points [((0 : Int), (0 : Int)), ((0 : Int), (0 : Int))]
        (0, 2) (0, 0) 1 oracleC7 10).map List.length = some 3 ∧
    (∀ k, 0 ≤ (oracleC7 k).1 ∧ (oracleC7 k).1 ≤ 2 ∧
      0 ≤ (oracleC7 k).2 ∧ (oracleC7 k).2 ≤ 0) ∧
    ((3 : Nat) ≠ 1 + 1) := by
  refine ⟨by decide, ?_, by decide⟩
  intro k
  by_cases h : k = 0 <;> simp [oracleC7, h]

/-- C7 (amended): on termination the scatter step returns a duplicate-free
superset of the input's coordinates whose size is the input **list length**
(duplicates included) plus N, every newly added coordinate lying inside the
box; consequently the final ExcavatedSet of a successful decode has no
duplicate coordinate pair. When the input list is duplicate-free this gives
exactly N additional distinct coordinates, as the claim states. -/
theorem c7_scatter_contract (existing : List (Int × Int)) (xr yr : Int × Int)
    (numPoints : Nat) (oracle : Nat → Int × Int) (fuel : Nat)
    (out : List (Int × Int))
    (hbox : ∀ k, xr.1 ≤ (oracle k).1 ∧ (oracle k).1 ≤ xr.2 ∧
      yr.1 ≤ (oracle k).2 ∧ (oracle k).2 ≤ yr.2)
    (hout : add_random_excavated_points existing xr yr numPoints oracle fuel = some out) :
    out.Nodup ∧
    (∀ p ∈ existing, p ∈ out) ∧
    out.length = existing.length + numPoints ∧
    (∀ p ∈ out, p ∉ existing →
      xr.1 ≤ p.1 ∧ p.1 ≤ xr.2 ∧ yr.1 ≤ p.2 ∧ p.2 ≤ yr.2) ∧
    (∀ (token order : List Char) (oracle2 : Nat → Int × Int) (fuel2 : Nat)
        (r : ParseResult),
      parse_nft_id token order oracle2 fuel2 = some (POut.ok r) →
      r.finalPoints.Nodup) := by
  unfold add_random_excavated_points at hout
  obtain ⟨h1, h2, h3, h4⟩ :=
    scatterLoop_invariant oracle (existing.length + numPoints) fuel
      (dedupPoints existing) 0 out hout (dedupPoints_nodup existing)
  refine ⟨h1, ?_, ?_, ?_, ?_⟩
  · intro p hp
    exact h2 p ((dedupPoints_mem existing p).mpr hp)
  · exact h3 (by have := dedupPoints_length_le existing; omega)
  · intro p hp hnot
    rcases h4 p hp with hin | ⟨j, rfl⟩
    · exact absurd ((dedupPoints_mem existing p).mp hin) hnot
    · exact hbox j
  · intro token order oracle2 fuel2 r hparse
    obtain ⟨rc, v, coords, sizes, area, shapes, final, -, -, -, -, -, hfinal, hr⟩ :=
      parse_ok_inversion token order oracle2 fuel2 r hparse
    subst hr
    unfold add_random_excavated_points at hfinal
    exact (scatterLoop_invariant oracle2 _ fuel2 _ 0 final hfinal
      (dedupPoints_nodup _)).1

theorem c7_scatter_contract_witness :
    ([((1 : Int), (0 : Int)), ((0 : Int), (0 : Int))] : List (Int × Int)).Nodup ∧
    (∀ p ∈ ([((0 : Int), (0 : Int))] : List (Int × Int)),
      p ∈ ([((1 : Int), (0 : Int)), ((0 : Int), (0 : Int))] : List (Int × Int))) ∧
    ([((1 : Int), (0 : Int)), ((0 : Int), (0 : Int))] : List (Int × Int)).length =
      ([((0 : Int), (0 : Int))] : List (Int × Int)).length + 1 ∧
    (∀ p ∈ ([((1 : Int), (0 : Int)), ((0 : Int), (0 : Int))] : List (Int × Int)),
      p ∉ ([((0 : Int), (0 : Int))] : List (Int × Int)) →
      (0 : Int) ≤ p.1 ∧ p.1 ≤ 1 ∧ (0 : Int) ≤ p.2 ∧ p.2 ≤ 0) ∧
    (∀ (token order : List Char) (oracle2 : Nat → Int × Int) (fuel2 : Nat)
        (r : ParseResult),
      parse_nft_id token order oracle2 fuel2 = some (POut.ok r) →
      r.finalPoints.Nodup) :=
  c7_scatter_contract [((0 : Int), (0 : Int))] (0, 1) (0, 0) 1
    (fun _ => ((1 : Int), (0 : Int))) 5 [((1 : Int), (0 : Int)), ((0 : Int), (0 : Int))]
    (fun _ => by refine ⟨?_, ?_, ?_, ?_⟩ <;> norm_num) (by decide)

/-- C9: on every successful decode, RoomCount is 2 plus the base-36 value of
the character after the 4-character prefix, and the three per-room sequences
have exactly RoomCount elements; when that character exists but is not
alphanumeric (on a well-prefixed token), decoding fails with the
invalid-room-character error. -/
theorem c9_room_count_and_lengths (token order : List Char)
    (oracle : Nat → Int × Int) (fuel : Nat) :
    (∀ r : ParseResult, parse_nft_id token order oracle fuel = some (POut.ok r) →
      ∃ c v, token.get? 4 = some c ∧ toDigit36 c = some v ∧
        r.numRooms = 2 + v ∧
        r.coordinates.length = r.numRooms ∧
        r.sizes.length = r.numRooms ∧
        r.shapes.length = r.numRooms) ∧
    (∀ c : Char, token.take 4 = ['n', 'f', 't', '1'] → token.get? 4 = some c →
      toDigit36 c = none →
      parse_nft_id token order oracle fuel = some (POut.err PErrKind.invalidRoomChar)) := by
  constructor
  · intro r h
    obtain ⟨rc, v, coords, sizes, area, shapes, final, hrc, hv, hcoords, hsizes,
      hshapes, hfinal, hr⟩ := parse_ok_inversion token order oracle fuel r h
    subst hr
    refine ⟨rc, v, hrc, hv, rfl, ?_, ?_, ?_⟩
    · exact readCoordsAux_length token (2 + v) (2 + v) 5 coords hcoords
    · unfold readSizes at hsizes
      split at hsizes
      · exact absurd hsizes (by simp)
      · exact readSizesAux_length token (2 + v) _ (2 + v) 0 sizes area hsizes
    · exact readShapesAux_length token (2 + v) _ shapes hshapes
  · intro c htake hc hdig
    have hlen4 : 4 ≤ token.length := by
      have h := congrArg List.length htake
      rw [List.length_take] at h
      simp at h
      omega
    have hbl : ¬ byteLen token < 4 := by
      have := length_le_byteLen token
      omega
    unfold parse_nft_id
    rw [if_neg (by push_neg; exact ⟨htake, by omega⟩)]
    rw [hc]
    dsimp only
    rw [hdig]

/-- The witness token for C9: `"nft10azzaii00"` decodes to 2 rooms at
`(14,49)` and `(49,14)`, and the oracle supplies the 4 distinct in-box
scatter points the loop needs. -/
def tokC9 : List Char := "nft10azzaii00".data

def ordC9 : List Char := ['n', 'f', 't', 'a', 'z', 'i']

def oracleC9 : Nat → Int × Int := fun k => (13 + (k : Int), 13)

def parseResC9 : ParseResult :=
  match parse_nft_id tokC9 ordC9 oracleC9 40 with
  | some (POut.ok r) => r
  | _ => ⟨0, [], [], [], (0, 0), (0, 0), 0, "", "", 0, []⟩

set_option maxRecDepth 8000 in
theorem c9_room_count_and_lengths_witness :
    ∃ c v, tokC9.get? 4 = some c ∧ toDigit36 c = some v ∧
      parseResC9.numRooms = 2 + v ∧
      parseResC9.coordinates.length = parseResC9.numRooms ∧
      parseResC9.sizes.length = parseResC9.numRooms ∧
      parseResC9.shapes.length = parseResC9.numRooms :=
  (c9_room_count_and_lengths tokC9 ordC9 oracleC9 40).1 parseResC9 (by decide)
